import Mathlib

/-!
Verification of the crimeapp-mcp repository's natural-language specification
against a shallow embedding of its source code.

The embedding covers:
* `src/db/sql-guardrails.ts`  — `sanitizeSelect` (SQL guardrail);
* `src/db/planner.ts`         — `planSqlFromQuery` (JSON extraction step);
* `src/mcp/tools/crimeInsights.ts` — the `crime_insights` tool handler,
  including its zod input schema and the named-parameter binding step;
* `src/db/news.ts`            — `fetchArticles` (dynamic WHERE construction,
  ordering and the related-incident error policy).

Strings are modelled as `List Char`/`String`; the JavaScript regular-expression
tests used by the source are translated to decidable scanners whose semantics
match the concrete patterns appearing in the code.
-/

namespace CrimeApp

/-- The character class of JavaScript's `\s` (and the set trimmed by
`String.prototype.trim`): ASCII whitespace, NBSP, Ogham space, the Unicode
space separators, line/paragraph separators and the BOM. -/
def isSpace (c : Char) : Bool :=
  decide (c.toNat = 0x20 ∨ c.toNat = 0x9 ∨ c.toNat = 0xa ∨ c.toNat = 0xb ∨
    c.toNat = 0xc ∨ c.toNat = 0xd ∨ c.toNat = 0xa0 ∨ c.toNat = 0x1680 ∨
    (0x2000 ≤ c.toNat ∧ c.toNat ≤ 0x200a) ∨ c.toNat = 0x2028 ∨
    c.toNat = 0x2029 ∨ c.toNat = 0x202f ∨ c.toNat = 0x205f ∨
    c.toNat = 0x3000 ∨ c.toNat = 0xfeff)

/-- The character class of JavaScript's `\w` (word characters for `\b`
boundaries): ASCII letters, digits and underscore. -/
def isWordChar (c : Char) : Bool :=
  decide ((65 ≤ c.toNat ∧ c.toNat ≤ 90) ∨ (97 ≤ c.toNat ∧ c.toNat ≤ 122) ∨
    (48 ≤ c.toNat ∧ c.toNat ≤ 57) ∨ c.toNat = 95)

/-- The character class of JavaScript's `\d`: ASCII digits. -/
def isDigitC (c : Char) : Bool :=
  decide (48 ≤ c.toNat ∧ c.toNat ≤ 57)

/-- `s.trim()` of JavaScript: remove leading and trailing `\s` characters. -/
def trimJS (l : List Char) : List Char :=
  ((l.dropWhile isSpace).reverse.dropWhile isSpace).reverse

/-- `s.replace(/;+$/g, "")`: remove every trailing semicolon. -/
def dropTrailingSemis (l : List Char) : List Char :=
  (l.reverse.dropWhile (· == ';')).reverse

/-- The normalisation prefix of `sanitizeSelect`:
`sql.trim().replace(/;+$/g, "")`. -/
def normalizeSql (l : List Char) : List Char :=
  dropTrailingSemis (trimJS l)

/-- The literal characters `w` match at the head of `l` (case must already
be folded). -/
def matchesAt : List Char → List Char → Bool
  | [], _ => true
  | _ :: _, [] => false
  | w :: ws, c :: cs => w == c && matchesAt ws cs

/-- A `\b` word boundary holds between the previous character and the
rest-of-input `l`, for a match whose last consumed character was a word
character: true at end of input or when the next character is not a word
character. -/
def boundaryOk (l : List Char) : Bool :=
  match l with
  | [] => true
  | c :: _ => !(isWordChar c)

/-- Generic left-to-right regex scan: `f` decides whether a match starts at
the current position; `p` records whether the preceding character was a word
character (for the leading `\b` of the patterns below, which all start with a
word character). -/
def scanFrom (f : List Char → Bool) (p : Bool) : List Char → Bool
  | [] => false
  | c :: rest => (!p && f (c :: rest)) || scanFrom f (isWordChar c) rest

/-- Match condition for `\bw\b` at the current position, for a keyword `w`
made of word characters: `w` is literally present and is followed by a word
boundary (the leading boundary is handled by the scanner's `prev` flag). -/
def wordHere (w : List Char) (l : List Char) : Bool :=
  matchesAt w l && boundaryOk (l.drop w.length)

/-- `\bw\b` occurs somewhere in `l` (case must already be folded). -/
def hasWord (w : List Char) (l : List Char) : Bool :=
  scanFrom (wordHere w) false l

/-- Lower-case fold, as the `/i` flag canonicalises ASCII. -/
def lowerL (l : List Char) : List Char :=
  l.map Char.toLower

/-- `SQL_SELECT_PATTERN.test(s)` for
`/^\s*(?:with\b[\s\S]*?\bselect\b|select\b)/i`: after the leading whitespace
run, the input starts with `select` at a word boundary, or starts with `with`
at a word boundary and contains `\bselect\b` somewhere later. -/
def sqlSelectPattern (s : List Char) : Bool :=
  let t := (lowerL s).dropWhile isSpace
  (matchesAt "select".data t && boundaryOk (t.drop 6)) ||
  (matchesAt "with".data t && boundaryOk (t.drop 4) && hasWord "select".data t)

/-- The mutating keywords of `MUTATING_KEYWORDS`. -/
def mutatingKeywords : List (List Char) :=
  ["insert".data, "update".data, "delete".data, "drop".data, "alter".data,
   "create".data, "grant".data, "revoke".data, "truncate".data,
   "attach".data, "detach".data, "pragma".data, "vacuum".data]

/-- `MUTATING_KEYWORDS.test(s)` for
`/\b(insert|update|delete|drop|alter|create|grant|revoke|truncate|attach|detach|pragma|vacuum)\b/i`. -/
def hasMutating (s : List Char) : Bool :=
  mutatingKeywords.any (fun w => hasWord w (lowerL s))

/-- After the (nonempty, maximal) digit run of `\d+`, a word boundary must
follow: consume digits, then require end of input or a non-word character. -/
def digitsTail : List Char → Bool
  | [] => true
  | c :: rest => if isDigitC c then digitsTail rest else !(isWordChar c)

/-- `\d+\b`: at least one digit, then a word boundary after the digit run. -/
def digitsBound : List Char → Bool
  | [] => false
  | c :: rest => isDigitC c && digitsTail rest

/-- Continuation of `\s+\d+\b` after its first whitespace character:
consume further whitespace, then require `\d+\b`. -/
def spacesThen : List Char → Bool
  | [] => false
  | c :: rest => if isSpace c then spacesThen rest else digitsBound (c :: rest)

/-- `\s+\d+\b`: at least one `\s` character, then digits and a boundary. -/
def spacesDigits : List Char → Bool
  | [] => false
  | c :: rest => isSpace c && spacesThen rest

/-- Match condition of `/\blimit\s+\d+\b/i` at the current position (on the
case-folded input): the literal `limit`, then `\s+\d+\b`. -/
def limitHere (l : List Char) : Bool :=
  matchesAt "limit".data l && spacesDigits (l.drop 5)

/-- `/\blimit\s+\d+\b/i.test(s)`. -/
def hasLimitClause (s : List Char) : Bool :=
  scanFrom limitHere false (lowerL s)

/-- The `LIMIT 1000` line appended by the guardrail. -/
def limitSuffix : List Char := "\nLIMIT 1000".data

/-- `sanitizeSelect` from `src/db/sql-guardrails.ts`:
trim, strip trailing semicolons, require the SELECT/WITH-SELECT leading
clause, reject mutating keywords, and append `LIMIT 1000` when no
`LIMIT <n>` clause is present.  A thrown `Error` is modelled as `.error`
carrying the message. -/
def sanitizeSelect (sql : String) : Except String String :=
  let s := normalizeSql sql.data
  if !sqlSelectPattern s then .error "Only SELECT queries are allowed."
  else if hasMutating s then .error "Mutating SQL is not allowed."
  else if !hasLimitClause s then .ok (String.mk (s ++ limitSuffix))
  else .ok (String.mk s)

/-- A scalar value as it flows between JSON plans and D1 bindings: the
`unknown` JSON values of `plan.params`, with `undefVal` for JavaScript's
`undefined` (a missing key lookup). -/
inductive DbValue where
  | str : String → DbValue
  | num : Int → DbValue
  | null : DbValue
  | undefVal : DbValue
deriving DecidableEq, Repr

/-- The `Plan` type of `src/db/planner.ts`:
`{ sql: string; params?: Record<string, unknown>; explain?: string }`.
The `params` record is modelled as an association list in key order. -/
structure Plan where
  sql : String
  params : Option (List (String × DbValue))
  explain : Option String
deriving DecidableEq

/-- The two planner failure modes of the spec's taxonomy:
`PlannerFormatError` (`"Planner did not return JSON."`) and
`PlannerParseError` (a `JSON.parse` throw). -/
inductive PlannerError where
  | formatError : PlannerError
  | parseError : PlannerError
deriving DecidableEq

/-- `s.indexOf(c)`, as an option instead of `-1`. -/
def idxOf? (c : Char) (l : List Char) : Option Nat :=
  l.findIdx? (· == c)

/-- `s.lastIndexOf(c)`, as an option instead of `-1`. -/
def lastIdxOf? (c : Char) (l : List Char) : Option Nat :=
  match idxOf? c l.reverse with
  | none => none
  | some i => some (l.length - 1 - i)

/-- The JSON-extraction tail of `planSqlFromQuery` (`src/db/planner.ts`):
`raw.indexOf("{")`, `raw.lastIndexOf("}")`, throw the format error if either
is `-1`, otherwise `JSON.parse(raw.slice(start, end + 1))`.  `JSON.parse`
is an external library call, abstracted as a `parse` oracle; the extracted
plan is returned as-is, with no validation of `plan.sql`. -/
def planFromRaw (parse : String → Option Plan) (raw : String) :
    Except PlannerError Plan :=
  match idxOf? '\x7b' raw.data, lastIdxOf? '\x7d' raw.data with
  | some s, some e =>
      match parse (String.mk ((raw.data.drop s).take (e + 1 - s))) with
      | some plan => .ok plan
      | none => .error .parseError
  | _, _ => .error .formatError

/-- Raw `crime_insights` tool arguments, before the zod schema is applied. -/
structure RawArgs where
  q : String
  model : Option String
  summarize : Option Bool
  preview_limit : Option Nat

/-- `crime_insights` tool arguments after the zod schema is applied. -/
structure ParsedArgs where
  q : String
  model : String
  summarize : Bool
  preview_limit : Nat
deriving DecidableEq

/-- The zod input schema of the `crime_insights` tool
(`src/mcp/tools/crimeInsights.ts`):
`q: z.string().min(1)`,
`model: z.string().optional().transform(() => "gpt-4o-mini")` — note the
transform discards whatever the caller supplied,
`summarize: z.boolean().default(true)`,
`preview_limit: z.number().int().min(1).max(50).default(20)`. -/
def parseToolArgs (r : RawArgs) : Option ParsedArgs :=
  if r.q.length < 1 then none
  else match r.preview_limit with
    | some pl =>
        if 1 ≤ pl ∧ pl ≤ 50 then
          some ⟨r.q, "gpt-4o-mini", r.summarize.getD true, pl⟩
        else none
    | none => some ⟨r.q, "gpt-4o-mini", r.summarize.getD true, 20⟩

/-- A D1 result row: column name / value pairs in column order. -/
abbrev Row : Type := List (String × DbValue)

/-- The external world of one `crime_insights` invocation.  Each network /
binding boundary of the handler is an oracle: the resolved API key secret
(`none` for a falsy secret), the optional `CRIME_DB` binding (one
`prepare(sql).bind(values).all()` round-trip, `.error` for a thrown store
error), the planner call, the summarisation chat call (keyed by api key,
model and prompt), the serialized schema JSON and `JSON.stringify` for row
previews. -/
structure ToolEnv where
  apiKey : Option String
  crimeDb : Option (String → List DbValue → Except String (List Row))
  planner : String → String → String → Except String Plan
  chat : String → String → String → Except String String
  schemaJson : String
  stringify : List Row → String

/-- The `metadata` of a successful `crime_insights` response. -/
structure Meta where
  sql : String
  rowCount : Nat
  columns : List String
  model : String
deriving DecidableEq

/-- A `crime_insights` tool response: one text content item, the `isError`
flag, and optional metadata. -/
structure ToolResponse where
  text : String
  isErr : Bool
  meta : Option Meta
deriving DecidableEq

/-- JavaScript `String.prototype.trim` on `String`. -/
def trimS (s : String) : String := String.mk (trimJS s.data)

/-- The ordered `:name` placeholder tokens of a statement:
`[...sql.matchAll(/:\w+/g)].map(m => m[0].slice(1))`.  Each match is a `:`
followed by a maximal nonempty run of word characters; scanning resumes
after the match. -/
def extractGo : Nat → List Char → List String
  | _, [] => []
  | 0, _ :: _ => []
  | fuel + 1, c :: rest =>
    if c = ':' then
      let w := rest.takeWhile isWordChar
      if w.isEmpty then extractGo fuel rest
      else String.mk w :: extractGo fuel (rest.drop w.length)
    else extractGo fuel rest

/-- The placeholder scan, with enough fuel for the whole statement.  (The
fuel only bounds recursion depth; every step consumes at least one
character, so `l.length` always suffices.) -/
def extractPlaceholders (l : List Char) : List String :=
  extractGo l.length l

/-- `plan.params![n]`: look a placeholder name up in the params record;
a missing key yields `undefined`. -/
def lookupParam (ps : List (String × DbValue)) (n : String) : DbValue :=
  match ps.find? (fun p => p.1 == n) with
  | some p => p.2
  | none => .undefVal

/-- `names.map(n => plan.params![n])`: the positional binding list of the
executor, in placeholder occurrence order. -/
def bindValues (sql : String) (ps : List (String × DbValue)) : List DbValue :=
  (extractPlaceholders sql.data).map (lookupParam ps)

/-- The hardcoded fallback plan used when no API key is configured. -/
def fallbackPlan : Plan :=
  { sql := "SELECT id, offence_summary FROM incidents ORDER BY id DESC LIMIT 20",
    params := none, explain := none }

/-- The allow-list `ALLOWED_OPENAI_MODELS`. -/
def allowedOpenAiModels : List String := ["gpt-4o-mini"]

/-- The unsupported-model error text of the handler. -/
def unsupportedModelText (m : String) : String :=
  "Model \"" ++ m ++ "\" is not supported for crime insights. Supported models: gpt-4o-mini"

/-- The raw (non-summarized) response text:
`Rows: ${rows.length}\n\nSQL:\n${sql}\n\nPreview:\n${JSON.stringify(preview, null, 2)}`. -/
def rawDumpText (rowCount : Nat) (sql : String) (previewJson : String) : String :=
  "Rows: " ++ toString rowCount ++ "\n\nSQL:\n" ++ sql ++ "\n\nPreview:\n" ++ previewJson

/-- The summarisation prompt: the handler's prompt parts with falsy entries
removed (`filter(Boolean)`), joined by blank lines. -/
def summaryPrompt (q : String) (explain : Option String) (sql : String)
    (rowCount previewLen : Nat) (previewJson : String) : String :=
  String.intercalate "\n\n"
    ((["Question: " ++ q] ++
      (match explain with
       | some e => if e.isEmpty then [] else ["Planner notes: " ++ e]
       | none => []) ++
      ["SQL:\n" ++ sql,
       "Returned rows: " ++ toString rowCount ++ " (showing first " ++
         toString previewLen ++ ")",
       previewJson,
       "Write a concise, factual answer. Include concrete counts and time ranges if present."]).filter
      (fun s => !s.isEmpty))

/-- The `crime_insights` tool handler (`registerCrimeInsightsTool`), after
the zod schema has produced `ParsedArgs`: resolve the secret, require the
`CRIME_DB` binding, compute `effectiveModel = model?.trim() || "gpt-4o-mini"`,
check the allow-list, plan (planner call with an API key, hardcoded fallback
without), guard via `sanitizeSelect`, bind named parameters when
`plan.params` is a nonempty record, execute, and either dump the raw result
or summarize it through the chat oracle.  Thrown errors at each boundary
are modelled by the `.error` branches. -/
def runCrimeInsights (env : ToolEnv) (a : ParsedArgs) : ToolResponse :=
  let effectiveModel := if (trimS a.model).isEmpty then "gpt-4o-mini" else trimS a.model
  match env.crimeDb with
  | none =>
      ⟨"CRIME_DB binding is not configured; unable to query the incidents dataset.",
       true, none⟩
  | some db =>
    if !(allowedOpenAiModels.contains effectiveModel) then
      ⟨unsupportedModelText effectiveModel, true, none⟩
    else
      match (match env.apiKey with
             | some k => env.planner k a.q env.schemaJson
             | none => .ok fallbackPlan) with
      | .error e => ⟨"Planning failed: " ++ e, true, none⟩
      | .ok plan =>
        match sanitizeSelect plan.sql with
        | .error e => ⟨"SQL rejected: " ++ e, true, none⟩
        | .ok sql =>
          let values := match plan.params with
            | some ps => if ps.length ≠ 0 then bindValues sql ps else []
            | none => []
          match db sql values with
          | .error e => ⟨"Query failed: " ++ e ++ "\n\nSQL:\n" ++ sql, true, none⟩
          | .ok rows =>
            let columns := match rows with
              | [] => ([] : List String)
              | r :: _ => r.map Prod.fst
            let preview := rows.take a.preview_limit
            let rawResp : ToolResponse :=
              ⟨rawDumpText rows.length sql (env.stringify preview), false,
               some ⟨sql, rows.length, columns, effectiveModel⟩⟩
            match env.apiKey with
            | none => rawResp
            | some k =>
              if !a.summarize then rawResp
              else
                match env.chat k effectiveModel
                    (summaryPrompt a.q plan.explain sql rows.length preview.length
                      (env.stringify preview)) with
                | .ok summary =>
                    ⟨summary, false, some ⟨sql, rows.length, columns, effectiveModel⟩⟩
                | .error e => ⟨"Query failed: " ++ e ++ "\n\nSQL:\n" ++ sql, true, none⟩

/-- The `ArticleRow` shape selected from the `article` table
(`src/db/news.ts`): nullable columns are options. -/
structure ArticleRow where
  article_id : Int
  source_id : Int
  title : String
  byline : Option String
  url_canonical : String
  url_landing : Option String
  published_at : Option String
  main_image_url : Option String
  categories : Option String
  body_text : Option String
  city_id : Int
deriving DecidableEq

/-- The `RelatedIncident` output shape (`src/db/news.ts`), after the row
mapping of `loadRelatedIncidents`. -/
structure RelatedIncident where
  incidentId : Int
  goNumber : Option String
  summary : Option String
  category : Option String
  neighbourhood : Option String
  occurredDate : Option String
  reportedDate : Option String
  matchScore : Int
  method : String
deriving DecidableEq

/-- The `ArticleRecord` output shape of `fetchArticles`. -/
structure ArticleRecord where
  id : Int
  sourceId : Int
  title : String
  byline : Option String
  url : String
  urlLanding : Option String
  publishedAt : Option String
  mainImageUrl : Option String
  categories : List String
  excerpt : Option String
  relatedIncidents : List RelatedIncident
  cityId : Int
deriving DecidableEq

/-- The `FetchArgs` filter set of `fetchArticles`. -/
structure FetchArgs where
  limit : Nat
  since : Option String
  query : Option String
  sourceIds : Option (List Int)
  cityId : Option Int

/-- JavaScript truthiness for an optional string filter: present and
nonempty. -/
def truthyStr : Option String → Option String
  | some s => if s = "" then none else some s
  | none => none

/-- The `LIKE` pattern built for the `query` filter. -/
def likePattern (q : String) : String := "%" ++ q ++ "%"

/-- `if (args.since) { filters.push("AND published_at >= ?"); params.push(args.since); }` -/
def sinceFilter (a : FetchArgs) : List String :=
  match truthyStr a.since with
  | some _ => ["AND published_at >= ?"]
  | none => []

/-- Parameters pushed by the `since` block. -/
def sinceParams (a : FetchArgs) : List DbValue :=
  match truthyStr a.since with
  | some s => [DbValue.str s]
  | none => []

/-- `if (args.query) { filters.push("AND (title LIKE ? OR body_text LIKE ?)"); params.push(pattern, pattern); }` -/
def queryFilter (a : FetchArgs) : List String :=
  match truthyStr a.query with
  | some _ => ["AND (title LIKE ? OR body_text LIKE ?)"]
  | none => []

/-- Parameters pushed by the `query` block: the `%...%` pattern, twice. -/
def queryParams (a : FetchArgs) : List DbValue :=
  match truthyStr a.query with
  | some q => [DbValue.str (likePattern q), DbValue.str (likePattern q)]
  | none => []

/-- The `IN (...)` clause text for a nonempty id list. -/
def srcClause (ids : List Int) : String :=
  "AND source_id IN (" ++ String.intercalate "," (ids.map (fun _ => "?")) ++ ")"

/-- `if (args.sourceIds?.length) { filters.push(...IN...); params.push(...args.sourceIds); }` -/
def srcFilter (a : FetchArgs) : List String :=
  match a.sourceIds with
  | some ids => if ids.length ≠ 0 then [srcClause ids] else []
  | none => []

/-- Parameters pushed by the `sourceIds` block. -/
def srcParams (a : FetchArgs) : List DbValue :=
  match a.sourceIds with
  | some ids => if ids.length ≠ 0 then ids.map DbValue.num else []
  | none => []

/-- `if (typeof args.cityId === "number") { filters.push("AND city_id = ?"); params.push(args.cityId); }` -/
def cityFilter (a : FetchArgs) : List String :=
  match a.cityId with
  | some _ => ["AND city_id = ?"]
  | none => []

/-- Parameters pushed by the `cityId` block. -/
def cityParams (a : FetchArgs) : List DbValue :=
  match a.cityId with
  | some c => [DbValue.num c]
  | none => []

/-- The conditional `WHERE` clause fragments, in the order `fetchArticles`
pushes them: `since`, `query`, `sourceIds`, `cityId`. -/
def articleFilters (a : FetchArgs) : List String :=
  sinceFilter a ++ queryFilter a ++ srcFilter a ++ cityFilter a

/-- The positional parameter list, in the order `fetchArticles` pushes it:
the parameters of each appended clause in clause order, and finally the
`LIMIT` bound. -/
def articleParams (a : FetchArgs) : List DbValue :=
  sinceParams a ++ queryParams a ++ srcParams a ++ cityParams a ++
    [DbValue.num (Int.ofNat a.limit)]

/-- Code-point lexicographic strict order on character lists: SQLite's
`BINARY` collation on UTF-8 text agrees with it. -/
def listLtC : List Char → List Char → Bool
  | [], [] => false
  | [], _ :: _ => true
  | _ :: _, [] => false
  | a :: as, b :: bs =>
      if a.toNat < b.toNat then true
      else if b.toNat < a.toNat then false
      else listLtC as bs

/-- Strict text order on `String`. -/
def strLtB (a b : String) : Bool := listLtC a.data b.data

/-- `published_at IS NULL` flag of the generated `ORDER BY`'s first key:
`CASE WHEN published_at IS NULL THEN 1 ELSE 0 END`. -/
def nullFlag (r : ArticleRow) : Nat :=
  match r.published_at with
  | none => 1
  | some _ => 0

/-- SQLite ordering on the nullable `published_at` column: `NULL` sorts
below every text value, text by `BINARY` collation. -/
def pubLtB : Option String → Option String → Bool
  | none, none => false
  | none, some _ => true
  | some _, none => false
  | some a, some b => strLtB a b

/-- The total preorder realising the generated
`ORDER BY CASE WHEN published_at IS NULL THEN 1 ELSE 0 END,
published_at DESC, article_id DESC`. -/
def rowLe (a b : ArticleRow) : Bool :=
  if nullFlag a < nullFlag b then true
  else if nullFlag b < nullFlag a then false
  else if pubLtB b.published_at a.published_at then true
  else if pubLtB a.published_at b.published_at then false
  else decide (b.article_id ≤ a.article_id)

/-- `rowLe` as a relation, for `List.insertionSort`. -/
def RowOrder (a b : ArticleRow) : Prop := rowLe a b = true

instance : DecidableRel RowOrder := fun a b =>
  inferInstanceAs (Decidable (rowLe a b = true))

/-- Truthiness of a condition on a row for the `since` filter:
`published_at >= ?` is unknown (not true) on `NULL`. -/
def sinceMatches (s : String) (r : ArticleRow) : Bool :=
  match r.published_at with
  | some p => !strLtB p s
  | none => false

/-- A row satisfies every `WHERE` clause the builder appended; the `LIKE`
predicate of the store is an abstract parameter (`like pattern text`),
with a `NULL` `body_text` making its `LIKE` comparison not-true. -/
def rowMatchesB (like : String → String → Bool) (a : FetchArgs)
    (r : ArticleRow) : Bool :=
  (match truthyStr a.since with
   | some s => sinceMatches s r
   | none => true) &&
  (match truthyStr a.query with
   | some q =>
       like (likePattern q) r.title ||
       (match r.body_text with
        | some b => like (likePattern q) b
        | none => false)
   | none => true) &&
  (match a.sourceIds with
   | some ids => if ids.length ≠ 0 then ids.contains r.source_id else true
   | none => true) &&
  (match a.cityId with
   | some c => r.city_id == c
   | none => true)

/-- The store's evaluation of the generated article query: filter by the
appended clauses, sort by the generated `ORDER BY`, apply `LIMIT ?`. -/
def runArticleQuery (like : String → String → Bool) (table : List ArticleRow)
    (a : FetchArgs) : List ArticleRow :=
  ((table.filter (rowMatchesB like a)).insertionSort RowOrder).take a.limit

/-- JavaScript `s.split(",")`: the comma-separated groups, keeping empty
groups (`"".split(",")` is `[""]`). -/
def splitOnComma : List Char → List (List Char)
  | [] => [[]]
  | c :: rest =>
    if c = ',' then [] :: splitOnComma rest
    else
      match splitOnComma rest with
      | [] => [[c]]
      | g :: gs => (c :: g) :: gs

/-- `row.categories?.split(",").map(c => c.trim()).filter(Boolean) ?? []`. -/
def splitCategories : Option String → List String
  | none => []
  | some s =>
      ((splitOnComma s.data).map (fun c => String.mk (trimJS c))).filter
        (fun t => !t.isEmpty)

/-- The row-to-record mapping at the end of `fetchArticles`;
`rel` is the related-incidents map (`relatedByArticle.get(id) ?? []`). -/
def toRecord (rel : Int → List RelatedIncident) (r : ArticleRow) :
    ArticleRecord :=
  { id := r.article_id
    sourceId := r.source_id
    title := r.title
    byline := r.byline
    url := r.url_canonical
    urlLanding := r.url_landing
    publishedAt := r.published_at
    mainImageUrl := r.main_image_url
    categories := splitCategories r.categories
    excerpt := r.body_text.map (fun b => String.mk (b.data.take 280))
    relatedIncidents := rel r.article_id
    cityId := r.city_id }

/-- `needle` occurs as a contiguous substring of the haystack. -/
def hasSubstr (needle : List Char) : List Char → Bool
  | [] => needle.isEmpty
  | c :: rest => matchesAt needle (c :: rest) || hasSubstr needle rest

/-- `/no such table/i.test(message)`. -/
def testNoSuchTable (msg : String) : Bool :=
  hasSubstr "no such table".data (lowerL msg.data)

/-- `fetchArticles` (`src/db/news.ts`): run the generated article query,
return `[]` early on no rows, then best-effort load related incidents —
a load failure whose message matches `/no such table/i` degrades to an
empty map, any other failure propagates — and map rows to records.
The main query's store round-trip is the query semantics `runArticleQuery`;
the related-incident round-trip is the `loadRelated` oracle. -/
def fetchArticles (like : String → String → Bool) (table : List ArticleRow)
    (loadRelated : List Int → Except String (Int → List RelatedIncident))
    (a : FetchArgs) : Except String (List ArticleRecord) :=
  let rows := runArticleQuery like table a
  if rows.isEmpty then .ok []
  else
    match loadRelated (rows.map (·.article_id)) with
    | .ok rel => .ok (rows.map (toRecord rel))
    | .error msg =>
        if testNoSuchTable msg then .ok (rows.map (toRecord (fun _ => [])))
        else .error msg

/-- The claim-side ordering on returned article records: articles with a
`publishedAt` value before those without, then `publishedAt` descending,
then identifier descending. -/
def RecOrder (x y : ArticleRecord) : Prop :=
  (x.publishedAt.isSome ∧ y.publishedAt.isNone) ∨
  (x.publishedAt.isSome = y.publishedAt.isSome ∧
    (pubLtB y.publishedAt x.publishedAt = true ∨
      (x.publishedAt = y.publishedAt ∧ y.id ≤ x.id)))

/-- Sample store oracle: a successful query with no rows. -/
def sampleDb : String → List DbValue → Except String (List Row) :=
  fun _ _ => .ok []

/-- Sample environment: no API key, a configured store, inert oracles. -/
def sampleEnv : ToolEnv :=
  ⟨none, some sampleDb, fun _ _ _ => .error "planner down",
   fun _ _ _ => .ok "summary", "schema-json", fun _ => "[]"⟩

/-- The example statement of the executor claim. -/
def exSql : String := "SELECT id FROM incidents WHERE go_number = :p1 LIMIT 10"

/-- Environment for the executor claim: an API key, a caller-chosen store
oracle, a planner producing the example plan, an unused chat oracle. -/
def exEnv (db : String → List DbValue → Except String (List Row)) : ToolEnv :=
  ⟨some "key", some db,
   fun _ _ _ => .ok ⟨exSql, some [("p1", DbValue.str "GO123")], none⟩,
   fun _ _ _ => .error "chat down", "schema-json", fun _ => "[]"⟩


/-- Witness fixtures: a two-row article table (one dated, one undated). -/
def wRow1 : ArticleRow := ⟨1, 1, "t1", none, "u1", none, none, none, none, none, 7⟩

/-- Second witness row, with a publication date. -/
def wRow2 : ArticleRow :=
  ⟨2, 1, "t2", none, "u2", none, some "2024-01-02", none, none, none, 7⟩

/-- The witness table. -/
def wTable : List ArticleRow := [wRow1, wRow2]

/-- The witness filter set: `limit 1`, no filters. -/
def wArgs : FetchArgs := ⟨1, none, none, none, none⟩

/-- The witness `LIKE` semantics (everything matches). -/
def wLike : String → String → Bool := fun _ _ => true

/-- The witness related-incident load (empty map). -/
def wLoad : List Int → Except String (Int → List RelatedIncident) :=
  fun _ => .ok (fun _ => [])



/-- The last character of a list, if any. -/
def lastChar? (l : List Char) : Option Char := l.reverse.head?

/-- Every character of `t` is removable tail junk for the normalisation:
whitespace or a semicolon. -/
def JunkList (t : List Char) : Prop := ∀ c ∈ t, isSpace c = true ∨ c = ';'


end CrimeApp

deriving instance DecidableEq for Except

namespace CrimeApp

theorem char_eq_of_toNat_eq {a b : Char} (h : a.toNat = b.toNat) : a = b :=
  Char.ext (UInt32.toNat.inj h)

theorem listLtC_conn : ∀ {a b : List Char},
    listLtC a b = false → listLtC b a = false → a = b
  | [], [], _, _ => rfl
  | [], _ :: _, h1, _ => by simp [listLtC] at h1
  | _ :: _, [], _, h2 => by simp [listLtC] at h2
  | x :: xs, y :: ys, h1, h2 => by
      simp only [listLtC] at h1 h2
      by_cases hxy : x.toNat < y.toNat
      · rw [if_pos hxy] at h1; cases h1
      · by_cases hyx : y.toNat < x.toNat
        · rw [if_pos hyx] at h2; cases h2
        · rw [if_neg hxy, if_neg hyx] at h1
          rw [if_neg hyx, if_neg hxy] at h2
          rw [char_eq_of_toNat_eq (show x.toNat = y.toNat by omega),
            listLtC_conn h1 h2]

theorem listLtC_trans : ∀ {a b c : List Char},
    listLtC a b = true → listLtC b c = true → listLtC a c = true
  | [], b, c, h1, h2 => by
      cases b with
      | nil => simp [listLtC] at h1
      | cons y ys =>
        cases c with
        | nil => simp [listLtC] at h2
        | cons z zs => simp [listLtC]
  | _ :: _, [], _, h1, _ => by simp [listLtC] at h1
  | _ :: _, _ :: _, [], _, h2 => by simp [listLtC] at h2
  | x :: xs, y :: ys, z :: zs, h1, h2 => by
      simp only [listLtC] at h1 h2 ⊢
      by_cases hyx : y.toNat < x.toNat
      · rw [if_neg (show ¬x.toNat < y.toNat by omega), if_pos hyx] at h1; cases h1
      · by_cases hzy : z.toNat < y.toNat
        · rw [if_neg (show ¬y.toNat < z.toNat by omega), if_pos hzy] at h2; cases h2
        · by_cases hxy : x.toNat < y.toNat
          · rw [if_pos (show x.toNat < z.toNat by omega)]
          · by_cases hyz : y.toNat < z.toNat
            · rw [if_pos (show x.toNat < z.toNat by omega)]
            · rw [if_neg hxy, if_neg hyx] at h1
              rw [if_neg hyz, if_neg hzy] at h2
              rw [if_neg (show ¬x.toNat < z.toNat by omega),
                if_neg (show ¬z.toNat < x.toNat by omega)]
              exact listLtC_trans h1 h2

theorem string_eq_of_data {a b : String} (h : a.data = b.data) : a = b := by
  cases a; cases b; exact congrArg String.mk h

theorem pubLtB_conn : ∀ {x y : Option String},
    pubLtB x y = false → pubLtB y x = false → x = y
  | none, none, _, _ => rfl
  | none, some _, h1, _ => by simp [pubLtB] at h1
  | some _, none, _, h2 => by simp [pubLtB] at h2
  | some p, some q, h1, h2 => by
      simp only [pubLtB, strLtB] at h1 h2
      rw [string_eq_of_data (listLtC_conn h1 h2)]

theorem pubLtB_trans : ∀ {x y z : Option String},
    pubLtB x y = true → pubLtB y z = true → pubLtB x z = true
  | none, none, _, h1, _ => by simp [pubLtB] at h1
  | some _, none, _, h1, _ => by simp [pubLtB] at h1
  | none, some _, none, _, h2 => by simp [pubLtB] at h2
  | some _, some _, none, _, h2 => by simp [pubLtB] at h2
  | none, some _, some _, _, _ => by simp [pubLtB]
  | some p, some q, some r, h1, h2 => by
      simp only [pubLtB, strLtB] at h1 h2 ⊢
      exact listLtC_trans h1 h2

theorem rowLe_cases {a b : ArticleRow} : rowLe a b = true ↔
    (nullFlag a < nullFlag b ∨
      (nullFlag a = nullFlag b ∧
        (pubLtB b.published_at a.published_at = true ∨
          (pubLtB b.published_at a.published_at = false ∧
           pubLtB a.published_at b.published_at = false ∧
           b.article_id ≤ a.article_id)))) := by
  unfold rowLe
  split_ifs with h1 h2 h3 h4 <;> simp_all <;> omega

theorem rowLe_total (a b : ArticleRow) : rowLe a b = true ∨ rowLe b a = true := by
  rw [rowLe_cases, rowLe_cases]
  by_cases h1 : nullFlag a = nullFlag b
  · by_cases h2 : pubLtB b.published_at a.published_at = true
    · exact Or.inl (Or.inr ⟨h1, Or.inl h2⟩)
    · by_cases h3 : pubLtB a.published_at b.published_at = true
      · exact Or.inr (Or.inr ⟨h1.symm, Or.inl h3⟩)
      · simp only [Bool.not_eq_true] at h2 h3
        rcases Int.le_total a.article_id b.article_id with h | h
        · exact Or.inr (Or.inr ⟨h1.symm, Or.inr ⟨h3, h2, h⟩⟩)
        · exact Or.inl (Or.inr ⟨h1, Or.inr ⟨h2, h3, h⟩⟩)
  · rcases Nat.lt_or_ge (nullFlag a) (nullFlag b) with h | h
    · exact Or.inl (Or.inl h)
    · exact Or.inr (Or.inl (by omega))

theorem rowLe_trans {a b c : ArticleRow} (h1 : rowLe a b = true)
    (h2 : rowLe b c = true) : rowLe a c = true := by
  rw [rowLe_cases] at h1 h2 ⊢
  rcases h1 with h1 | ⟨he1, h1⟩
  · rcases h2 with h2 | ⟨he2, _⟩
    · exact Or.inl (by omega)
    · exact Or.inl (by omega)
  · rcases h2 with h2 | ⟨he2, h2⟩
    · exact Or.inl (by omega)
    · refine Or.inr ⟨by omega, ?_⟩
      rcases h1 with h1 | ⟨hn1, hn1', hi1⟩
      · rcases h2 with h2 | ⟨hn2, hn2', hi2⟩
        · exact Or.inl (pubLtB_trans h2 h1)
        · rw [pubLtB_conn hn2 hn2']
          exact Or.inl h1
      · rcases h2 with h2 | ⟨hn2, hn2', hi2⟩
        · rw [← pubLtB_conn hn1 hn1']
          exact Or.inl h2
        · rw [pubLtB_conn hn2 hn2']
          exact Or.inr ⟨hn1, hn1', Int.le_trans hi2 hi1⟩

instance : IsTrans ArticleRow RowOrder := ⟨fun _ _ _ => rowLe_trans⟩

instance : IsTotal ArticleRow RowOrder := ⟨rowLe_total⟩

/-- **C1.**  `sanitizeSelect` fails (with a rejection error) if and only if
the input, after trimming whitespace and trailing semicolons, does not begin
with a `SELECT` or `WITH ... SELECT` leading clause (case-insensitive), or
contains one of the thirteen mutating keywords as a standalone word
(word-boundary, case-insensitive) anywhere — even after a `SELECT` clause;
in all other cases it returns a guarded statement. -/
theorem sanitizeSelect_rejects_iff (sql : String) :
    (∃ e, sanitizeSelect sql = Except.error e) ↔
      (sqlSelectPattern (normalizeSql sql.data) = false ∨
       hasMutating (normalizeSql sql.data) = true) := by
  unfold sanitizeSelect
  cases hs : sqlSelectPattern (normalizeSql sql.data) <;>
    cases hm : hasMutating (normalizeSql sql.data) <;>
      cases hl : hasLimitClause (normalizeSql sql.data) <;> simp [hs, hm, hl]

/-- **C2, counterexample.**  The claim says a candidate that already has a
`LIMIT n` clause is returned unchanged; but `"SELECT 1 LIMIT 5;"` is
accepted, has a `LIMIT` clause, and is returned with its trailing semicolon
stripped — not unchanged. -/
theorem sanitizeSelect_unchanged_cex :
    sanitizeSelect "SELECT 1 LIMIT 5;" = Except.ok "SELECT 1 LIMIT 5" ∧
    hasLimitClause (normalizeSql "SELECT 1 LIMIT 5;".data) = true ∧
    sanitizeSelect "SELECT 1 LIMIT 5;" ≠ Except.ok "SELECT 1 LIMIT 5;" := by
  refine ⟨by decide, by decide, by decide⟩

/-- **C2, amended.**  For every accepted candidate, the result is the
*normalized* candidate (whitespace-trimmed, trailing semicolons stripped):
with exactly `LIMIT 1000` appended on a new line when the normalized
statement has no `LIMIT n` clause, and the normalized statement itself,
unchanged, when it already has one. -/
theorem sanitizeSelect_normalized_limit (x y : String)
    (h : sanitizeSelect x = Except.ok y) :
    (hasLimitClause (normalizeSql x.data) = false →
       y.data = normalizeSql x.data ++ limitSuffix) ∧
    (hasLimitClause (normalizeSql x.data) = true →
       y.data = normalizeSql x.data) := by
  simp only [sanitizeSelect] at h
  cases hs : sqlSelectPattern (normalizeSql x.data) <;> rw [hs] at h
  · simp at h
  · cases hm : hasMutating (normalizeSql x.data) <;> rw [hm] at h
    · cases hl : hasLimitClause (normalizeSql x.data) <;> rw [hl] at h <;> simp at h
      · refine ⟨fun _ => ?_, fun hc => ?_⟩
        · rw [← h]
        · simp [hl] at hc
      · refine ⟨fun hc => ?_, fun _ => ?_⟩
        · simp [hl] at hc
        · rw [← h]
    · simp at h

/-- **C2 witness** for `sanitizeSelect_normalized_limit`, at `"SELECT 1"`. -/
theorem sanitizeSelect_normalized_limit_witness :
    (hasLimitClause (normalizeSql "SELECT 1".data) = false →
       ("SELECT 1\nLIMIT 1000" : String).data = normalizeSql "SELECT 1".data ++ limitSuffix) ∧
    (hasLimitClause (normalizeSql "SELECT 1".data) = true →
       ("SELECT 1\nLIMIT 1000" : String).data = normalizeSql "SELECT 1".data) :=
  sanitizeSelect_normalized_limit "SELECT 1" "SELECT 1\nLIMIT 1000" (by decide)

/-- **C4.**  The claim (and spec step 1) says an invocation requesting a
model absent from the allow-list — e.g. `"gpt-9-ultra"` — is rejected with an
`isError:true` response naming it.  The zod schema's `transform` replaces
every supplied model with `"gpt-4o-mini"` before the handler runs, so the
allow-list check always passes: the invocation with model `"gpt-9-ultra"`
parses to model `"gpt-4o-mini"`, runs to a *non-error* response, and never
produces the unsupported-model text. -/
theorem crimeInsights_model_rejection_unreachable :
    parseToolArgs ⟨"How many break-ins last month?", some "gpt-9-ultra", none, none⟩ =
      some ⟨"How many break-ins last month?", "gpt-4o-mini", true, 20⟩ ∧
    (runCrimeInsights sampleEnv
        ⟨"How many break-ins last month?", "gpt-4o-mini", true, 20⟩).isErr = false ∧
    (runCrimeInsights sampleEnv
        ⟨"How many break-ins last month?", "gpt-4o-mini", true, 20⟩).text ≠
      unsupportedModelText "gpt-9-ultra" := by
  refine ⟨by decide, by decide, by decide⟩

/-- **C5.**  The caller-supplied model argument has no effect: the input
schema's transform replaces any supplied model string with `"gpt-4o-mini"`,
so two invocations differing only in the model argument (same question,
flags, environment, store and chat oracles) produce identical responses. -/
theorem crimeInsights_model_noninterference (env : ToolEnv) (q : String)
    (sm : Option Bool) (pl : Option Nat) (m1 m2 : Option String) :
    (parseToolArgs ⟨q, m1, sm, pl⟩).map (runCrimeInsights env) =
    (parseToolArgs ⟨q, m2, sm, pl⟩).map (runCrimeInsights env) := rfl

/-- **C6.**  With no configured API key (and a configured store), the plan
is exactly the hardcoded fallback
`SELECT id, offence_summary FROM incidents ORDER BY id DESC LIMIT 20`: the
response is independent of the planner *and* chat oracles (the planner is
never called and summarization is skipped, whatever `summarize` says), and
on a successful execution the response is the raw dump — containing the
guarded SQL (the fallback statement, unchanged by the guardrail), the row
count and the serialized preview of the first `preview_limit` rows — with
`isError` absent.  The parsed model is always `"gpt-4o-mini"` (see C5). -/
theorem crimeInsights_no_api_key_fallback
    (db : String → List DbValue → Except String (List Row))
    (planner1 planner2 : String → String → String → Except String Plan)
    (chat1 chat2 : String → String → String → Except String String)
    (sj : String) (strf : List Row → String)
    (q : String) (sm : Bool) (pl : Nat) :
    runCrimeInsights ⟨none, some db, planner1, chat1, sj, strf⟩ ⟨q, "gpt-4o-mini", sm, pl⟩ =
      runCrimeInsights ⟨none, some db, planner2, chat2, sj, strf⟩ ⟨q, "gpt-4o-mini", sm, pl⟩ ∧
    sanitizeSelect fallbackPlan.sql = Except.ok fallbackPlan.sql ∧
    (∀ rows, db fallbackPlan.sql [] = Except.ok rows →
      runCrimeInsights ⟨none, some db, planner1, chat1, sj, strf⟩ ⟨q, "gpt-4o-mini", sm, pl⟩ =
        ⟨rawDumpText rows.length fallbackPlan.sql (strf (rows.take pl)), false,
         some ⟨fallbackPlan.sql, rows.length,
           (match rows with
            | [] => ([] : List String)
            | r :: _ => r.map Prod.fst), "gpt-4o-mini"⟩⟩) := by
  have hsan : sanitizeSelect fallbackPlan.sql = Except.ok fallbackPlan.sql := by decide
  have htm : trimS "gpt-4o-mini" = "gpt-4o-mini" := by decide
  refine ⟨rfl, hsan, fun rows h => ?_⟩
  simp only [runCrimeInsights, hsan, htm, h,
    show allowedOpenAiModels.contains "gpt-4o-mini" = true from by decide]
  simp only [ite_self,
    show allowedOpenAiModels.contains "gpt-4o-mini" = true from by decide,
    Bool.not_true]
  simp [fallbackPlan]
  rw [show db "SELECT id, offence_summary FROM incidents ORDER BY id DESC LIMIT 20" [] =
      Except.ok rows from h]

/-- **C6 witness** for `crimeInsights_no_api_key_fallback`, at a concrete
one-row store. -/
theorem crimeInsights_no_api_key_fallback_witness :
    runCrimeInsights ⟨none, some (fun _ _ => Except.ok [[("id", DbValue.num 1)]]),
        fun _ _ _ => Except.error "planner down", fun _ _ _ => Except.ok "sum", "sj",
        fun _ => "[]"⟩ ⟨"How many break-ins last month?", "gpt-4o-mini", true, 20⟩ =
      runCrimeInsights ⟨none, some (fun _ _ => Except.ok [[("id", DbValue.num 1)]]),
        fun _ _ _ => Except.ok fallbackPlan, fun _ _ _ => Except.error "chat down", "sj",
        fun _ => "[]"⟩ ⟨"How many break-ins last month?", "gpt-4o-mini", true, 20⟩ ∧
    sanitizeSelect fallbackPlan.sql = Except.ok fallbackPlan.sql ∧
    runCrimeInsights ⟨none, some (fun _ _ => Except.ok [[("id", DbValue.num 1)]]),
        fun _ _ _ => Except.error "planner down", fun _ _ _ => Except.ok "sum", "sj",
        fun _ => "[]"⟩ ⟨"How many break-ins last month?", "gpt-4o-mini", true, 20⟩ =
      ⟨rawDumpText 1 fallbackPlan.sql "[]", false,
       some ⟨fallbackPlan.sql, 1, ["id"], "gpt-4o-mini"⟩⟩ := by
  have h := crimeInsights_no_api_key_fallback
    (fun _ _ => Except.ok [[("id", DbValue.num 1)]])
    (fun _ _ _ => Except.error "planner down") (fun _ _ _ => Except.ok fallbackPlan)
    (fun _ _ _ => Except.ok "sum") (fun _ _ _ => Except.error "chat down")
    "sj" (fun _ => "[]") "How many break-ins last month?" true 20
  exact ⟨h.1, h.2.1, h.2.2 [[("id", DbValue.num 1)]] rfl⟩

/-- **C7.**  The planner extracts the substring from the first `{` to the
last `}` and parses it: if the text has no `{` or no `}` it fails with the
format error (`"Planner did not return JSON."`); if the extracted substring
does not parse it fails with the parse error; and whenever the parse
produces a plan — any plan, with no validation of `plan.sql` being a
`SELECT` — that plan is returned as-is. -/
theorem planFromRaw_spec (parse : String → Option Plan) (raw : String) :
    (planFromRaw parse raw = Except.error PlannerError.formatError ↔
      (idxOf? '\x7b' raw.data = none ∨ lastIdxOf? '\x7d' raw.data = none)) ∧
    (planFromRaw parse raw = Except.error PlannerError.parseError ↔
      (∃ s e, idxOf? '\x7b' raw.data = some s ∧ lastIdxOf? '\x7d' raw.data = some e ∧
        parse (String.mk ((raw.data.drop s).take (e + 1 - s))) = none)) ∧
    (∀ p : Plan, planFromRaw parse raw = Except.ok p ↔
      (∃ s e, idxOf? '\x7b' raw.data = some s ∧ lastIdxOf? '\x7d' raw.data = some e ∧
        parse (String.mk ((raw.data.drop s).take (e + 1 - s))) = some p)) := by
  unfold planFromRaw
  cases hs : idxOf? '\x7b' raw.data with
  | none => simp
  | some s =>
    cases he : lastIdxOf? '\x7d' raw.data with
    | none => simp
    | some e =>
      cases hp : parse (String.mk ((raw.data.drop s).take (e + 1 - s))) <;> simp [hp]

/-- **C8.**  The executor's binding step: the ordered `:name` placeholder
tokens are extracted from the statement, each is looked up by name in the
params record (missing names bind as `undefined`), and the values are bound
positionally in occurrence order — duplicate names bind the same value at
each occurrence.  For the example plan, the single placeholder binds to
`"GO123"` and the handler issues exactly one parameterized query, whose
result alone determines the response. -/
theorem executor_binding_spec :
    (∀ (stmt : String) (ps : List (String × DbValue)),
        bindValues stmt ps = (extractPlaceholders stmt.data).map (lookupParam ps)) ∧
    (∀ (stmt : String) (ps : List (String × DbValue)) (i j : Nat),
        (extractPlaceholders stmt.data)[i]? = (extractPlaceholders stmt.data)[j]? →
        (bindValues stmt ps)[i]? = (bindValues stmt ps)[j]?) ∧
    extractPlaceholders exSql.data = ["p1"] ∧
    bindValues exSql [("p1", DbValue.str "GO123")] = [DbValue.str "GO123"] ∧
    (∀ (db : String → List DbValue → Except String (List Row)) (rows : List Row),
        db exSql [DbValue.str "GO123"] = Except.ok rows →
        runCrimeInsights (exEnv db) ⟨"find the incident", "gpt-4o-mini", false, 20⟩ =
          ⟨rawDumpText rows.length exSql "[]", false,
           some ⟨exSql, rows.length,
             (match rows with
              | [] => ([] : List String)
              | r :: _ => r.map Prod.fst), "gpt-4o-mini"⟩⟩) := by
  refine ⟨fun _ _ => rfl, fun stmt ps i j h => ?_, by decide, by decide, ?_⟩
  · simp only [bindValues, List.getElem?_map, h]
  · intro db rows h
    have hsan : sanitizeSelect exSql = Except.ok exSql := by decide
    have hbind : bindValues exSql [("p1", DbValue.str "GO123")] = [DbValue.str "GO123"] := by
      decide
    have htm : trimS "gpt-4o-mini" = "gpt-4o-mini" := by decide
    simp only [runCrimeInsights, exEnv, hsan, hbind, htm, h,
      show allowedOpenAiModels.contains "gpt-4o-mini" = true from by decide]
    simp only [ite_self,
      show allowedOpenAiModels.contains "gpt-4o-mini" = true from by decide,
      Bool.not_true]
    simp [h]

/-- **C8 witness** for the universally quantified parts of
`executor_binding_spec`, at a statement with a duplicated placeholder and a
concrete one-row store. -/
theorem executor_binding_spec_witness :
    (bindValues "W :a :b :a" [("a", DbValue.num 1)] =
      (extractPlaceholders ("W :a :b :a" : String).data).map
        (lookupParam [("a", DbValue.num 1)])) ∧
    (bindValues "W :a :b :a" [("a", DbValue.num 1)])[0]? =
      (bindValues "W :a :b :a" [("a", DbValue.num 1)])[2]? ∧
    runCrimeInsights (exEnv (fun _ _ => Except.ok [[("id", DbValue.num 9)]]))
        ⟨"find the incident", "gpt-4o-mini", false, 20⟩ =
      ⟨rawDumpText 1 exSql "[]", false, some ⟨exSql, 1, ["id"], "gpt-4o-mini"⟩⟩ := by
  refine ⟨executor_binding_spec.1 "W :a :b :a" [("a", DbValue.num 1)], ?_, ?_⟩
  · exact executor_binding_spec.2.1 "W :a :b :a" [("a", DbValue.num 1)] 0 2 (by decide)
  · exact executor_binding_spec.2.2.2.2 (fun _ _ => Except.ok [[("id", DbValue.num 9)]])
      [[("id", DbValue.num 9)]] rfl

theorem truthyStr_ne_none_iff {o : Option String} :
    truthyStr o ≠ none ↔ ∃ s, o = some s ∧ s ≠ "" := by
  cases o with
  | none => simp [truthyStr]
  | some t =>
    by_cases ht : t = ""
    · simp [truthyStr, ht]
    · rw [show truthyStr (some t) = some t from by simp [truthyStr, ht]]
      simp only [ne_eq, reduceCtorEq, not_false_eq_true, true_iff]
      exact ⟨t, rfl, ht⟩

theorem srcClause_ne (ids : List Int) (t : String)
    (ht : t.data[4]? ≠ some 's') : srcClause ids ≠ t := by
  intro he
  apply ht
  rw [← he]
  unfold srcClause
  rw [String.data_append, String.data_append, List.append_assoc,
    List.getElem?_append_left (by decide : (4 : Nat) < "AND source_id IN (".data.length)]
  decide

theorem mem_sinceFilter {a : FetchArgs} {x : String} :
    x ∈ sinceFilter a ↔ (x = "AND published_at >= ?" ∧ truthyStr a.since ≠ none) := by
  unfold sinceFilter
  cases truthyStr a.since <;> simp

theorem mem_queryFilter {a : FetchArgs} {x : String} :
    x ∈ queryFilter a ↔
      (x = "AND (title LIKE ? OR body_text LIKE ?)" ∧ truthyStr a.query ≠ none) := by
  unfold queryFilter
  cases truthyStr a.query <;> simp

theorem mem_cityFilter {a : FetchArgs} {x : String} :
    x ∈ cityFilter a ↔ (x = "AND city_id = ?" ∧ a.cityId ≠ none) := by
  unfold cityFilter
  cases a.cityId <;> simp

theorem mem_srcFilter {a : FetchArgs} {x : String} :
    x ∈ srcFilter a ↔
      (∃ ids, a.sourceIds = some ids ∧ ids ≠ [] ∧ x = srcClause ids) := by
  rcases hs : a.sourceIds with _ | ids
  · simp [srcFilter, hs]
  · by_cases hl : ids.length = 0
    · rw [List.length_eq_zero] at hl
      subst hl
      simp [srcFilter, hs]
    · have hne : ids ≠ [] := fun he => hl (by simp [he])
      simp [srcFilter, hs, hl, hne]

theorem rowOrder_toRecord {rel : Int → List RelatedIncident} {a b : ArticleRow}
    (h : RowOrder a b) : RecOrder (toRecord rel a) (toRecord rel b) := by
  rw [RowOrder, rowLe_cases] at h
  unfold RecOrder toRecord
  simp only []
  rcases h with h | ⟨he, h⟩
  · left
    cases ha : a.published_at <;> cases hb : b.published_at <;>
      simp [nullFlag, ha, hb] at h ⊢
  · right
    constructor
    · cases ha : a.published_at <;> cases hb : b.published_at <;>
        simp [nullFlag, ha, hb] at he ⊢
    · rcases h with h | ⟨h1, h2, h3⟩
      · exact Or.inl h
      · exact Or.inr ⟨(pubLtB_conn h1 h2).symm, h3⟩

theorem fetchArticles_ok_shape {like : String → String → Bool}
    {table : List ArticleRow}
    {load : List Int → Except String (Int → List RelatedIncident)}
    {a : FetchArgs} {recs : List ArticleRecord}
    (h : fetchArticles like table load a = Except.ok recs) :
    ∃ rel, recs = (runArticleQuery like table a).map (toRecord rel) := by
  unfold fetchArticles at h
  by_cases he : (runArticleQuery like table a).isEmpty = true
  · rw [if_pos he] at h
    refine ⟨fun _ => [], ?_⟩
    rw [← Except.ok.inj h, List.isEmpty_iff.mp he]
    rfl
  · rw [if_neg he] at h
    split at h
    · rename_i rel heq
      exact ⟨rel, (Except.ok.inj h).symm⟩
    · rename_i msg heq
      by_cases ht : testNoSuchTable msg = true
      · rw [if_pos ht] at h
        exact ⟨fun _ => [], (Except.ok.inj h).symm⟩
      · rw [if_neg ht] at h
        exact absurd h (by simp)

/-- **C9.**  For every filter argument set, `fetchArticles` returns at most
`limit` articles, pairwise ordered with non-null `publishedAt` values before
null ones, then by `publishedAt` descending, then by identifier descending;
each conditional `WHERE` clause is appended exactly when its filter is
present (a truthy `since`/`query`, a nonempty `sourceIds` list, a numeric
`cityId`), and the bound parameters are the parameters of the appended
clauses in clause order, followed by the `LIMIT` bound. -/
theorem fetchArticles_order_limit_clauses
    (like : String → String → Bool) (table : List ArticleRow)
    (load : List Int → Except String (Int → List RelatedIncident))
    (a : FetchArgs) (recs : List ArticleRecord)
    (h : fetchArticles like table load a = Except.ok recs) :
    recs.length ≤ a.limit ∧
    recs.Pairwise RecOrder ∧
    (("AND published_at >= ?" ∈ articleFilters a) ↔ ∃ s, a.since = some s ∧ s ≠ "") ∧
    (("AND (title LIKE ? OR body_text LIKE ?)" ∈ articleFilters a) ↔
      ∃ q, a.query = some q ∧ q ≠ "") ∧
    (("AND city_id = ?" ∈ articleFilters a) ↔ ∃ c, a.cityId = some c) ∧
    (∀ ids, a.sourceIds = some ids → (srcClause ids ∈ articleFilters a ↔ ids ≠ [])) ∧
    articleParams a =
      sinceParams a ++ queryParams a ++ srcParams a ++ cityParams a ++
        [DbValue.num (Int.ofNat a.limit)] := by
  obtain ⟨rel, hrecs⟩ := fetchArticles_ok_shape h
  have hsort : ((table.filter (rowMatchesB like a)).insertionSort RowOrder).Pairwise RowOrder :=
    List.sorted_insertionSort RowOrder _
  have htake : (runArticleQuery like table a).Pairwise RowOrder :=
    hsort.sublist (List.take_sublist _ _)
  refine ⟨?_, ?_, ?_, ?_, ?_, ?_, rfl⟩
  · rw [hrecs, List.length_map]
    unfold runArticleQuery
    rw [List.length_take]
    exact Nat.min_le_left _ _
  · rw [hrecs]
    exact List.pairwise_map.mpr (htake.imp (fun hab => rowOrder_toRecord hab))
  · unfold articleFilters
    simp only [List.mem_append, mem_sinceFilter, mem_queryFilter, mem_cityFilter,
      mem_srcFilter]
    rw [← truthyStr_ne_none_iff]
    constructor
    · rintro (((⟨_, hp⟩ | ⟨hq, _⟩) | ⟨ids, _, _, hsc⟩) | ⟨hc, _⟩)
      · exact hp
      · exact absurd hq (by decide)
      · exact absurd hsc.symm (srcClause_ne ids _ (by decide))
      · exact absurd hc (by decide)
    · exact fun hp => Or.inl (Or.inl (Or.inl ⟨trivial, hp⟩))
  · unfold articleFilters
    simp only [List.mem_append, mem_sinceFilter, mem_queryFilter, mem_cityFilter,
      mem_srcFilter]
    rw [← truthyStr_ne_none_iff]
    constructor
    · rintro (((⟨hp, _⟩ | ⟨_, hq⟩) | ⟨ids, _, _, hsc⟩) | ⟨hc, _⟩)
      · exact absurd hp (by decide)
      · exact hq
      · exact absurd hsc.symm (srcClause_ne ids _ (by decide))
      · exact absurd hc (by decide)
    · exact fun hq => Or.inl (Or.inl (Or.inr ⟨trivial, hq⟩))
  · unfold articleFilters
    simp only [List.mem_append, mem_sinceFilter, mem_queryFilter, mem_cityFilter,
      mem_srcFilter]
    constructor
    · rintro (((⟨hp, _⟩ | ⟨hq, _⟩) | ⟨ids, _, _, hsc⟩) | ⟨_, hc⟩)
      · exact absurd hp (by decide)
      · exact absurd hq (by decide)
      · exact absurd hsc.symm (srcClause_ne ids _ (by decide))
      · rcases ho : a.cityId with _ | c
        · exact absurd ho hc
        · exact ⟨c, rfl⟩
    · rintro ⟨c, hc⟩
      refine Or.inr ⟨trivial, ?_⟩
      simp [hc]
  · intro ids hids
    unfold articleFilters
    simp only [List.mem_append, mem_sinceFilter, mem_queryFilter, mem_cityFilter,
      mem_srcFilter]
    constructor
    · rintro (((⟨hp, _⟩ | ⟨hq, _⟩) | ⟨ids', hi', hne, hsc⟩) | ⟨hc, _⟩)
      · exact absurd hp (srcClause_ne ids _ (by decide))
      · exact absurd hq (srcClause_ne ids _ (by decide))
      · obtain rfl : ids = ids' := Option.some.inj (hids ▸ hi')
        exact hne
      · exact absurd hc (srcClause_ne ids _ (by decide))
    · intro hne
      exact Or.inl (Or.inr ⟨ids, hids, hne, rfl⟩)

theorem fetchArticles_eq_of_error {like : String → String → Bool}
    {table : List ArticleRow}
    {load : List Int → Except String (Int → List RelatedIncident)}
    {a : FetchArgs} {msg : String}
    (hne : (runArticleQuery like table a).isEmpty = false)
    (h : load ((runArticleQuery like table a).map (·.article_id)) = Except.error msg) :
    fetchArticles like table load a =
      (if testNoSuchTable msg = true
       then Except.ok ((runArticleQuery like table a).map (toRecord (fun _ => [])))
       else Except.error msg) := by
  unfold fetchArticles
  rw [if_neg (by simp [hne])]
  split
  · rename_i rel heq
    rw [h] at heq
    cases heq
  · rename_i m heq
    rw [h] at heq
    rw [Except.error.inj heq]

/-- **C10.**  When the related-incident load fails with an error whose
message matches `/no such table/i`, `fetchArticles` swallows the error and
returns the articles with `relatedIncidents = []`; when the load fails with
any other message (and the load actually runs, i.e. the main query returned
rows), the error propagates out of `fetchArticles`. -/
theorem fetchArticles_related_error_policy
    (like : String → String → Bool) (table : List ArticleRow)
    (load : List Int → Except String (Int → List RelatedIncident))
    (a : FetchArgs) (msg : String)
    (h : load ((runArticleQuery like table a).map (·.article_id)) = Except.error msg) :
    (testNoSuchTable msg = true →
       fetchArticles like table load a =
         Except.ok ((runArticleQuery like table a).map (toRecord (fun _ => []))) ∧
       ∀ r ∈ (runArticleQuery like table a).map (toRecord (fun _ => [])),
         r.relatedIncidents = []) ∧
    (testNoSuchTable msg = false → runArticleQuery like table a ≠ [] →
       fetchArticles like table load a = Except.error msg) := by
  by_cases he : (runArticleQuery like table a).isEmpty = true
  · have hrows := List.isEmpty_iff.mp he
    constructor
    · intro _
      constructor
      · unfold fetchArticles
        rw [if_pos he, hrows]
        rfl
      · rw [hrows]
        intro r hr
        cases hr
    · intro _ hne
      exact absurd hrows hne
  · have hred := fetchArticles_eq_of_error (Bool.eq_false_iff.mpr he) h
    constructor
    · intro ht
      refine ⟨by rw [hred, if_pos ht], ?_⟩
      intro r hr
      rw [List.mem_map] at hr
      obtain ⟨row, _, rfl⟩ := hr
      rfl
    · intro ht _
      rw [hred, if_neg (by simp [ht])]

/-- **C10 witness** for `fetchArticles_related_error_policy`: a store whose
related-incident load raises `"no such table: article_incident_links"`
degrades to empty related-incident lists, and one raising `"boom"`
propagates. -/
theorem fetchArticles_related_error_policy_witness :
    (fetchArticles wLike wTable
        (fun _ => Except.error "D1_ERROR: no such table: article_incident_links")
        wArgs =
      Except.ok ((runArticleQuery wLike wTable wArgs).map (toRecord (fun _ => []))) ∧
     ∀ r ∈ (runArticleQuery wLike wTable wArgs).map (toRecord (fun _ => [])),
       r.relatedIncidents = []) ∧
    fetchArticles wLike wTable (fun _ => Except.error "boom") wArgs =
      Except.error "boom" := by
  constructor
  · exact (fetchArticles_related_error_policy wLike wTable
      (fun _ => Except.error "D1_ERROR: no such table: article_incident_links")
      wArgs "D1_ERROR: no such table: article_incident_links" rfl).1 (by decide)
  · exact (fetchArticles_related_error_policy wLike wTable
      (fun _ => Except.error "boom") wArgs "boom" rfl).2 (by decide) (by decide)

/-- **C9 witness** for `fetchArticles_order_limit_clauses`, at the concrete
two-row table with `limit 1`. -/
theorem fetchArticles_order_limit_clauses_witness :
    ((runArticleQuery wLike wTable wArgs).map (toRecord (fun _ => []))).length ≤
        wArgs.limit ∧
    ((runArticleQuery wLike wTable wArgs).map (toRecord (fun _ => []))).Pairwise
        RecOrder ∧
    (("AND published_at >= ?" ∈ articleFilters wArgs) ↔
      ∃ s, wArgs.since = some s ∧ s ≠ "") ∧
    (("AND (title LIKE ? OR body_text LIKE ?)" ∈ articleFilters wArgs) ↔
      ∃ q, wArgs.query = some q ∧ q ≠ "") ∧
    (("AND city_id = ?" ∈ articleFilters wArgs) ↔ ∃ c, wArgs.cityId = some c) ∧
    (∀ ids, wArgs.sourceIds = some ids →
      (srcClause ids ∈ articleFilters wArgs ↔ ids ≠ [])) ∧
    articleParams wArgs =
      sinceParams wArgs ++ queryParams wArgs ++ srcParams wArgs ++
        cityParams wArgs ++ [DbValue.num (Int.ofNat wArgs.limit)] :=
  fetchArticles_order_limit_clauses wLike wTable wLoad wArgs
    ((runArticleQuery wLike wTable wArgs).map (toRecord (fun _ => []))) (by decide)

theorem toNat_ofNat_valid {n : Nat} (h : n < 0xd800) : (Char.ofNat n).toNat = n := by
  unfold Char.ofNat
  rw [dif_pos (Or.inl h)]
  unfold Char.ofNatAux Char.toNat UInt32.toNat
  simp

theorem toLower_eq_self {c : Char} (h : ¬(65 ≤ c.toNat ∧ c.toNat ≤ 90)) :
    Char.toLower c = c := by
  unfold Char.toLower
  rw [if_neg (by omega)]

theorem toLower_toNat (c : Char) :
    (Char.toLower c).toNat =
      if 65 ≤ c.toNat ∧ c.toNat ≤ 90 then c.toNat + 32 else c.toNat := by
  by_cases h : 65 ≤ c.toNat ∧ c.toNat ≤ 90
  · rw [if_pos h]
    unfold Char.toLower
    rw [if_pos (by omega)]
    exact toNat_ofNat_valid (by omega)
  · rw [if_neg h, toLower_eq_self h]

theorem isSpace_toLower (c : Char) : isSpace (Char.toLower c) = isSpace c := by
  by_cases h : 65 ≤ c.toNat ∧ c.toNat ≤ 90
  · have h1 : (Char.toLower c).toNat = c.toNat + 32 := by
      rw [toLower_toNat, if_pos h]
    have h2 : isSpace (Char.toLower c) = false := by
      apply decide_eq_false
      rw [h1]
      omega
    have h3 : isSpace c = false := by
      apply decide_eq_false
      omega
    rw [h2, h3]
  · rw [toLower_eq_self h]

theorem toLower_semi : Char.toLower ';' = ';' :=
  toLower_eq_self (by decide)

theorem isWordChar_of_junk {c : Char} (h : isSpace c = true ∨ c = ';') :
    isWordChar c = false := by
  apply decide_eq_false
  rcases h with h | rfl
  · have := of_decide_eq_true h
    omega
  · decide

theorem junk_lowerL {t : List Char} (h : JunkList t) : JunkList (lowerL t) := by
  intro c hc
  rw [lowerL, List.mem_map] at hc
  obtain ⟨d, hd, rfl⟩ := hc
  rcases h d hd with hs | rfl
  · exact Or.inl (by rw [isSpace_toLower]; exact hs)
  · exact Or.inr toLower_semi

theorem junk_boundary {t : List Char} (h : JunkList t) : boundaryOk t = true := by
  cases t with
  | nil => rfl
  | cons c r =>
    have hw := isWordChar_of_junk (h c (List.mem_cons_self c r))
    simp [boundaryOk, hw]

theorem lowerL_head_not_space {s : List Char}
    (hh : ∀ c r, s = c :: r → isSpace c = false) :
    ∀ c r, lowerL s = c :: r → isSpace c = false := by
  intro c r hcr
  cases s with
  | nil => simp [lowerL] at hcr
  | cons a t =>
    rw [show lowerL (a :: t) = Char.toLower a :: lowerL t from rfl] at hcr
    rw [← (List.cons.inj hcr).1, isSpace_toLower]
    exact hh a t rfl

theorem matchesAt_length : ∀ {w m : List Char}, matchesAt w m = true →
    w.length ≤ m.length
  | [], _, _ => Nat.zero_le _
  | _ :: _, [], h => by cases h
  | a :: w, b :: m, h => by
      rw [matchesAt, Bool.and_eq_true] at h
      exact Nat.succ_le_succ (matchesAt_length h.2)

theorem matchesAt_append {b : List Char} : ∀ {w m : List Char},
    matchesAt w m = true → matchesAt w (m ++ b) = true
  | [], _, _ => rfl
  | _ :: _, [], h => by cases h
  | a :: w, c :: m, h => by
      rw [matchesAt, Bool.and_eq_true] at h
      rw [List.cons_append, matchesAt, Bool.and_eq_true]
      exact ⟨h.1, matchesAt_append h.2⟩

theorem matchesAt_reflect {b : List Char} (hb : boundaryOk b = true) :
    ∀ {w m : List Char}, (∀ c ∈ w, isWordChar c = true) →
    matchesAt w (m ++ b) = true → matchesAt w m = true
  | [], _, _, _ => rfl
  | a :: w, [], hw, h => by
      rw [List.nil_append] at h
      cases b with
      | nil => cases h
      | cons c r =>
        rw [matchesAt, Bool.and_eq_true] at h
        have ha : a = c := by simpa using h.1
        have hcw : isWordChar c = true := ha ▸ hw a (List.mem_cons_self a w)
        rw [boundaryOk] at hb
        rw [hcw] at hb
        cases hb
  | a :: w, c :: m, hw, h => by
      rw [List.cons_append, matchesAt, Bool.and_eq_true] at h
      rw [matchesAt, Bool.and_eq_true]
      exact ⟨h.1, matchesAt_reflect hb (fun d hd => hw d (List.mem_cons_of_mem a hd)) h.2⟩

theorem boundaryOk_append {m b : List Char} (hm : boundaryOk m = true)
    (hb : boundaryOk b = true) : boundaryOk (m ++ b) = true := by
  cases m with
  | nil => exact hb
  | cons c r => exact hm

theorem boundaryOk_reflect {m b : List Char} (h : boundaryOk (m ++ b) = true) :
    boundaryOk m = true := by
  cases m with
  | nil => rfl
  | cons c r => exact h

theorem drop_append_of_le {m b : List Char} {k : Nat} (h : k ≤ m.length) :
    (m ++ b).drop k = m.drop k ++ b := by
  rw [List.drop_append_eq_append_drop, Nat.sub_eq_zero_of_le h, List.drop_zero]

theorem wordHere_append_iff {w m b : List Char}
    (hw : ∀ c ∈ w, isWordChar c = true) (hb : boundaryOk b = true) :
    wordHere w (m ++ b) = wordHere w m := by
  unfold wordHere
  cases hm : matchesAt w m with
  | true =>
    rw [matchesAt_append hm, drop_append_of_le (matchesAt_length hm)]
    cases hbm : boundaryOk (m.drop w.length) with
    | true => rw [boundaryOk_append hbm hb]
    | false =>
      cases hd : m.drop w.length with
      | nil => rw [hd] at hbm; cases hbm
      | cons c r =>
        rw [hd] at hbm
        rw [show boundaryOk (c :: r ++ b) = boundaryOk (c :: r) from rfl, hbm]
  | false =>
    cases hmb : matchesAt w (m ++ b) with
    | true => rw [matchesAt_reflect hb hw hmb] at hm; cases hm
    | false => rfl

theorem scanFrom_mono_append {f : List Char → Bool} {b : List Char}
    (hm : ∀ m, m ≠ [] → f m = true → f (m ++ b) = true) :
    ∀ {a : List Char} {p : Bool}, scanFrom f p a = true →
      scanFrom f p (a ++ b) = true := by
  intro a
  induction a with
  | nil => intro p h; cases h
  | cons c rest ih =>
    intro p h
    rw [scanFrom, Bool.or_eq_true] at h
    rw [List.cons_append, scanFrom, Bool.or_eq_true]
    rcases h with h | h
    · rw [Bool.and_eq_true] at h
      refine Or.inl ?_
      rw [Bool.and_eq_true]
      exact ⟨h.1, by rw [← List.cons_append]; exact hm _ (by simp) h.2⟩
    · exact Or.inr (ih h)

theorem scanFrom_reflect_append {f : List Char → Bool} {b : List Char}
    (hr : ∀ m, m ≠ [] → f (m ++ b) = true → f m = true)
    (hb : ∀ q, scanFrom f q b = false) :
    ∀ {a : List Char} {p : Bool}, scanFrom f p (a ++ b) = true →
      scanFrom f p a = true := by
  intro a
  induction a with
  | nil => intro p h; rw [List.nil_append] at h; rw [hb p] at h; cases h
  | cons c rest ih =>
    intro p h
    rw [List.cons_append, scanFrom, Bool.or_eq_true] at h
    rw [scanFrom, Bool.or_eq_true]
    rcases h with h | h
    · rw [Bool.and_eq_true] at h
      refine Or.inl ?_
      rw [Bool.and_eq_true]
      refine ⟨h.1, hr _ (by simp) ?_⟩
      rw [List.cons_append]
      exact h.2
    · exact Or.inr (ih h)

theorem scanFrom_right_append {f : List Char → Bool} {b : List Char}
    (hbt : ∀ q, scanFrom f q b = true) :
    ∀ {a : List Char} {p : Bool}, scanFrom f p (a ++ b) = true := by
  intro a
  induction a with
  | nil => intro p; rw [List.nil_append]; exact hbt p
  | cons c rest ih =>
    intro p
    rw [List.cons_append, scanFrom, Bool.or_eq_true]
    exact Or.inr ih

theorem scanFrom_junk_false {f : List Char → Bool}
    (hf : ∀ c r, isWordChar c = false → f (c :: r) = false) :
    ∀ {b : List Char}, JunkList b → ∀ q, scanFrom f q b = false := by
  intro b
  induction b with
  | nil => intro _ _; rfl
  | cons c rest ih =>
    intro hJ q
    rw [scanFrom, hf c rest (isWordChar_of_junk (hJ c (List.mem_cons_self c rest)))]
    rw [Bool.and_false, Bool.false_or]
    exact ih (fun d hd => hJ d (List.mem_cons_of_mem c hd)) _

theorem wordHere_nonword_head {w : List Char} {c : Char} {r : List Char}
    (hw : ∀ d ∈ w, isWordChar d = true) (hne : w ≠ [])
    (hc : isWordChar c = false) : wordHere w (c :: r) = false := by
  cases w with
  | nil => exact absurd rfl hne
  | cons a ws =>
    unfold wordHere
    rw [matchesAt]
    cases hac : a == c with
    | false => rfl
    | true =>
      have : isWordChar c = true := (eq_of_beq hac) ▸ hw a (List.mem_cons_self a ws)
      rw [this] at hc
      cases hc

theorem isDigitC_of_junk {c : Char} (h : isSpace c = true ∨ c = ';') :
    isDigitC c = false := by
  apply decide_eq_false
  rcases h with h | rfl
  · have := of_decide_eq_true h
    omega
  · decide

theorem digitsTail_of_junk {b : List Char} (h : JunkList b) : digitsTail b = true := by
  induction b with
  | nil => rfl
  | cons c r ih =>
    rw [digitsTail, isDigitC_of_junk (h c (List.mem_cons_self c r)),
      isWordChar_of_junk (h c (List.mem_cons_self c r))]
    rfl

theorem digitsTail_junk {b : List Char} (h : JunkList b) :
    ∀ m, digitsTail (m ++ b) = digitsTail m := by
  intro m
  induction m with
  | nil => rw [List.nil_append, digitsTail_of_junk h]; rfl
  | cons c r ih =>
    rw [List.cons_append, digitsTail, digitsTail, ih]

theorem digitsBound_junk {b : List Char} (h : JunkList b) :
    ∀ m, digitsBound (m ++ b) = digitsBound m := by
  intro m
  cases m with
  | nil =>
    rw [List.nil_append]
    cases b with
    | nil => rfl
    | cons c r =>
      simp [digitsBound, isDigitC_of_junk (h c (List.mem_cons_self c r))]
  | cons c r =>
    rw [List.cons_append, digitsBound, digitsBound, digitsTail_junk h]

theorem spacesThen_of_junk {b : List Char} (h : JunkList b) : spacesThen b = false := by
  induction b with
  | nil => rfl
  | cons c r ih =>
    rw [spacesThen]
    rcases h c (List.mem_cons_self c r) with hs | hsem
    · rw [if_pos hs]
      exact ih (fun d hd => h d (List.mem_cons_of_mem c hd))
    · subst hsem
      rw [if_neg (by decide), digitsBound, isDigitC_of_junk (Or.inr rfl)]
      rfl

theorem spacesThen_junk {b : List Char} (h : JunkList b) :
    ∀ m, spacesThen (m ++ b) = spacesThen m := by
  intro m
  induction m with
  | nil => rw [List.nil_append, spacesThen_of_junk h]; rfl
  | cons c r ih =>
    rw [List.cons_append, spacesThen, spacesThen]
    by_cases hs : isSpace c = true
    · rw [if_pos hs, if_pos hs, ih]
    · rw [if_neg hs, if_neg hs, ← List.cons_append, digitsBound_junk h]

theorem spacesDigits_junk {b : List Char} (h : JunkList b) :
    ∀ m, spacesDigits (m ++ b) = spacesDigits m := by
  intro m
  cases m with
  | nil =>
    rw [List.nil_append]
    cases b with
    | nil => rfl
    | cons c r =>
      cases hs : isSpace c with
      | false => simp [spacesDigits, hs]
      | true =>
        simp [spacesDigits, hs,
          spacesThen_of_junk (fun d hd => h d (List.mem_cons_of_mem c hd))]
  | cons c r =>
    rw [List.cons_append, spacesDigits, spacesDigits, spacesThen_junk h]

theorem limitHere_junk {b : List Char} (h : JunkList b) :
    ∀ m, limitHere (m ++ b) = limitHere m := by
  intro m
  unfold limitHere
  cases hm : matchesAt "limit".data m with
  | true =>
    have hlen : (5 : Nat) ≤ m.length := by
      have := matchesAt_length hm
      simpa using this
    rw [matchesAt_append hm, drop_append_of_le hlen, spacesDigits_junk h]
  | false =>
    cases hmb : matchesAt "limit".data (m ++ b) with
    | true =>
      rw [matchesAt_reflect (junk_boundary h) (by decide) hmb] at hm
      cases hm
    | false => rfl

theorem dropWhile_head_not {p : Char → Bool} : ∀ {l : List Char} {c : Char},
    (l.dropWhile p).head? = some c → p c = false := by
  intro l
  induction l with
  | nil => intro c h; cases h
  | cons a r ih =>
    intro c h
    by_cases ha : p a = true
    · rw [List.dropWhile_cons, if_pos ha] at h
      exact ih h
    · rw [List.dropWhile_cons, if_neg ha] at h
      rw [← Option.some.inj h]
      exact Bool.eq_false_iff.mpr ha

theorem dropWhile_eq_self {p : Char → Bool} {l : List Char}
    (h : ∀ c r, l = c :: r → p c = false) : l.dropWhile p = l := by
  cases l with
  | nil => rfl
  | cons c r =>
    rw [List.dropWhile_cons, if_neg (by rw [h c r rfl]; exact Bool.false_ne_true)]

theorem rdrop_decomp (p : Char → Bool) (l : List Char) :
    ∃ t, l = (l.reverse.dropWhile p).reverse ++ t ∧ ∀ c ∈ t, p c = true := by
  refine ⟨(l.reverse.takeWhile p).reverse, ?_, ?_⟩
  · conv_lhs => rw [← l.reverse_reverse, ← List.takeWhile_append_dropWhile (p := p) (l := l.reverse)]
    rw [List.reverse_append]
  · intro c hc
    rw [List.mem_reverse] at hc
    exact List.mem_takeWhile_imp hc

theorem lastChar?_rdrop {p : Char → Bool} {l : List Char} {c : Char}
    (h : lastChar? ((l.reverse.dropWhile p).reverse) = some c) : p c = false := by
  unfold lastChar? at h
  rw [List.reverse_reverse] at h
  exact dropWhile_head_not h

theorem rdrop_eq_self {p : Char → Bool} {l : List Char}
    (h : ∀ c, lastChar? l = some c → p c = false) :
    (l.reverse.dropWhile p).reverse = l := by
  rw [dropWhile_eq_self, List.reverse_reverse]
  intro c r hrev
  apply h
  unfold lastChar?
  rw [hrev]
  rfl

theorem normalizeSql_head {l : List Char} {c : Char} {r : List Char}
    (hn : normalizeSql l = c :: r) : isSpace c = false := by
  obtain ⟨t1, h1, _⟩ := rdrop_decomp isSpace (l.dropWhile isSpace)
  obtain ⟨t2, h2, _⟩ := rdrop_decomp (fun d => d == ';')
    (((l.dropWhile isSpace).reverse.dropWhile isSpace).reverse)
  have key : l.dropWhile isSpace = normalizeSql l ++ t2 ++ t1 := by
    calc l.dropWhile isSpace
        = ((l.dropWhile isSpace).reverse.dropWhile isSpace).reverse ++ t1 := h1
      _ = (normalizeSql l ++ t2) ++ t1 := by rw [h2]; rfl
      _ = normalizeSql l ++ t2 ++ t1 := rfl
  apply dropWhile_head_not (p := isSpace) (l := l)
  rw [key, hn]
  rfl

theorem normalizeSql_decomp {l : List Char}
    (hh : ∀ c r, l = c :: r → isSpace c = false) :
    ∃ t, l = normalizeSql l ++ t ∧ JunkList t := by
  obtain ⟨t1, h1, hs1⟩ := rdrop_decomp isSpace (l.dropWhile isSpace)
  obtain ⟨t2, h2, hs2⟩ := rdrop_decomp (fun d => d == ';')
    (((l.dropWhile isSpace).reverse.dropWhile isSpace).reverse)
  refine ⟨t2 ++ t1, ?_, ?_⟩
  · calc l = l.dropWhile isSpace := (dropWhile_eq_self hh).symm
      _ = ((l.dropWhile isSpace).reverse.dropWhile isSpace).reverse ++ t1 := h1
      _ = (normalizeSql l ++ t2) ++ t1 := by rw [h2]; rfl
      _ = normalizeSql l ++ (t2 ++ t1) := by rw [List.append_assoc]
  · intro c hc
    rcases List.mem_append.mp hc with hc | hc
    · exact Or.inr (by simpa using hs2 c hc)
    · exact Or.inl (hs1 c hc)

theorem normalizeSql_last {l : List Char} {c : Char}
    (h : lastChar? (normalizeSql l) = some c) : (c == ';') = false :=
  lastChar?_rdrop (p := fun d => d == ';') h

theorem normalizeSql_eq_self {l : List Char}
    (hh : ∀ c r, l = c :: r → isSpace c = false)
    (hl1 : ∀ c, lastChar? l = some c → isSpace c = false)
    (hl2 : ∀ c, lastChar? l = some c → (c == ';') = false) :
    normalizeSql l = l := by
  unfold normalizeSql trimJS dropTrailingSemis
  rw [dropWhile_eq_self hh, rdrop_eq_self hl1, rdrop_eq_self hl2]

theorem lastChar?_append {a b : List Char} (hb : b ≠ []) :
    lastChar? (a ++ b) = lastChar? b := by
  unfold lastChar?
  rw [List.reverse_append, List.head?_append_of_ne_nil]
  simpa using hb

theorem sqlSelectPattern_of_head {s : List Char}
    (hh : ∀ c r, s = c :: r → isSpace c = false) :
    sqlSelectPattern s =
      ((matchesAt "select".data (lowerL s) && boundaryOk ((lowerL s).drop 6)) ||
       (matchesAt "with".data (lowerL s) && boundaryOk ((lowerL s).drop 4) &&
        hasWord "select".data (lowerL s))) := by
  unfold sqlSelectPattern
  rw [dropWhile_eq_self (lowerL_head_not_space hh)]

theorem select_word : ∀ c ∈ "select".data, isWordChar c = true := by decide

theorem select_ne_nil : "select".data ≠ [] := by decide

theorem mutatingKeywords_word :
    ∀ w ∈ mutatingKeywords, (∀ c ∈ w, isWordChar c = true) ∧ w ≠ [] := by decide

theorem limitSuffix_boundary : boundaryOk (lowerL limitSuffix) = true := by decide

theorem limitSuffix_scan_limit :
    ∀ q, scanFrom limitHere q (lowerL limitSuffix) = true := by decide

theorem limitSuffix_scan_kw :
    ∀ w ∈ mutatingKeywords, ∀ q, scanFrom (wordHere w) q (lowerL limitSuffix) = false := by
  decide

theorem limitHere_nonword_head {c : Char} {r : List Char}
    (hc : isWordChar c = false) : limitHere (c :: r) = false := by
  unfold limitHere
  cases hlc : ('l' == c) with
  | true =>
    rw [← eq_of_beq hlc] at hc
    exact absurd hc (by decide)
  | false =>
    rw [show matchesAt "limit".data (c :: r) = (('l' == c) && matchesAt "imit".data r) from rfl,
      hlc]
    rfl

theorem lowerL_append (a b : List Char) : lowerL (a ++ b) = lowerL a ++ lowerL b :=
  List.map_append _ _ _

theorem second_pass_core {n : List Char}
    (hh : ∀ c r, n = c :: r → isSpace c = false)
    (hsel : sqlSelectPattern n = true)
    (hmut : hasMutating n = false) :
    sqlSelectPattern (normalizeSql n) = true ∧
    hasMutating (normalizeSql n) = false ∧
    (hasLimitClause n = true → hasLimitClause (normalizeSql n) = true) := by
  obtain ⟨t, hdec, hJ⟩ := normalizeSql_decomp hh
  have hJL : JunkList (lowerL t) := junk_lowerL hJ
  have hbJL : boundaryOk (lowerL t) = true := junk_boundary hJL
  have hmap : lowerL n = lowerL (normalizeSql n) ++ lowerL t := by
    conv_lhs => rw [hdec]
    exact lowerL_append _ _
  have hh2 : ∀ c r, normalizeSql n = c :: r → isSpace c = false :=
    fun c r hcr => normalizeSql_head hcr
  have hword_scan_false : ∀ w, (∀ c ∈ w, isWordChar c = true) → w ≠ [] →
      ∀ q, scanFrom (wordHere w) q (lowerL t) = false := fun w hw hne =>
    scanFrom_junk_false (fun c r hc => wordHere_nonword_head hw hne hc) hJL
  refine ⟨?_, ?_, ?_⟩
  · rw [sqlSelectPattern_of_head hh, hmap] at hsel
    rw [sqlSelectPattern_of_head hh2]
    simp only [Bool.or_eq_true, Bool.and_eq_true] at hsel ⊢
    rcases hsel with ⟨hm, hbd⟩ | ⟨⟨hm, hbd⟩, hw⟩
    · have hm2 := matchesAt_reflect hbJL select_word hm
      have hlen : 6 ≤ (lowerL (normalizeSql n)).length := by
        have := matchesAt_length hm2
        simpa using this
      rw [drop_append_of_le hlen] at hbd
      exact Or.inl ⟨hm2, boundaryOk_reflect hbd⟩
    · have hm2 := matchesAt_reflect hbJL (by decide) hm
      have hlen : 4 ≤ (lowerL (normalizeSql n)).length := by
        have := matchesAt_length hm2
        simpa using this
      rw [drop_append_of_le hlen] at hbd
      refine Or.inr ⟨⟨hm2, boundaryOk_reflect hbd⟩, ?_⟩
      exact scanFrom_reflect_append
        (fun m hm0 hf => by rw [wordHere_append_iff select_word hbJL] at hf; exact hf)
        (hword_scan_false _ select_word select_ne_nil) hw
  · rw [hasMutating, List.any_eq_false] at hmut ⊢
    intro w hw hcon
    obtain ⟨hww, hwne⟩ := mutatingKeywords_word w hw
    have hext : hasWord w (lowerL n) = true := by
      rw [hmap]
      exact scanFrom_mono_append
        (fun m hm0 hf => by rw [wordHere_append_iff hww hbJL]; exact hf) hcon
    exact hmut w hw hext
  · intro hlim
    unfold hasLimitClause at hlim ⊢
    rw [hmap] at hlim
    exact scanFrom_reflect_append
      (fun m hm0 hf => by rw [limitHere_junk hJL m] at hf; exact hf)
      (scanFrom_junk_false (fun c r hc => limitHere_nonword_head hc) hJL) hlim

theorem append_limit_core {n : List Char}
    (hh : ∀ c r, n = c :: r → isSpace c = false)
    (hne : n ≠ [])
    (hsel : sqlSelectPattern n = true)
    (hmut : hasMutating n = false) :
    normalizeSql (n ++ limitSuffix) = n ++ limitSuffix ∧
    sqlSelectPattern (n ++ limitSuffix) = true ∧
    hasMutating (n ++ limitSuffix) = false ∧
    hasLimitClause (n ++ limitSuffix) = true := by
  have hhA : ∀ c r, n ++ limitSuffix = c :: r → isSpace c = false := by
    intro c r hcr
    cases n with
    | nil => exact absurd rfl hne
    | cons a tl =>
      rw [List.cons_append] at hcr
      rw [← (List.cons.inj hcr).1]
      exact hh a tl rfl
  have hmap : lowerL (n ++ limitSuffix) = lowerL n ++ lowerL limitSuffix :=
    lowerL_append _ _
  refine ⟨?_, ?_, ?_, ?_⟩
  · apply normalizeSql_eq_self hhA
    · intro c hc
      rw [lastChar?_append (by decide)] at hc
      rw [show lastChar? limitSuffix = some '0' from by decide] at hc
      rw [← Option.some.inj hc]
      decide
    · intro c hc
      rw [lastChar?_append (by decide)] at hc
      rw [show lastChar? limitSuffix = some '0' from by decide] at hc
      rw [← Option.some.inj hc]
      decide
  · rw [sqlSelectPattern_of_head hh] at hsel
    rw [sqlSelectPattern_of_head hhA, hmap]
    simp only [Bool.or_eq_true, Bool.and_eq_true] at hsel ⊢
    rcases hsel with ⟨hm, hbd⟩ | ⟨⟨hm, hbd⟩, hw⟩
    · have hlen : 6 ≤ (lowerL n).length := by
        have := matchesAt_length hm
        simpa using this
      rw [drop_append_of_le hlen]
      exact Or.inl ⟨matchesAt_append hm, boundaryOk_append hbd limitSuffix_boundary⟩
    · have hlen : 4 ≤ (lowerL n).length := by
        have := matchesAt_length hm
        simpa using this
      rw [drop_append_of_le hlen]
      refine Or.inr ⟨⟨matchesAt_append hm, boundaryOk_append hbd limitSuffix_boundary⟩, ?_⟩
      exact scanFrom_mono_append
        (fun m hm0 hf => by
          rw [wordHere_append_iff select_word limitSuffix_boundary]
          exact hf) hw
  · rw [hasMutating, List.any_eq_false] at hmut ⊢
    intro w hw hcon
    obtain ⟨hww, hwne⟩ := mutatingKeywords_word w hw
    have hrefl : hasWord w (lowerL n) = true := by
      rw [show lowerL (n ++ limitSuffix) = lowerL n ++ lowerL limitSuffix from
        lowerL_append _ _] at hcon
      exact scanFrom_reflect_append
        (fun m hm0 hf => by
          rw [wordHere_append_iff hww limitSuffix_boundary] at hf
          exact hf)
        (limitSuffix_scan_kw w hw) hcon
    exact hmut w hw hrefl
  · unfold hasLimitClause
    rw [hmap]
    exact scanFrom_right_append limitSuffix_scan_limit

theorem mk_data (s : String) : String.mk s.data = s := by cases s; rfl

theorem sanitize_ok_cases {x y : String} (h : sanitizeSelect x = Except.ok y) :
    sqlSelectPattern (normalizeSql x.data) = true ∧
    hasMutating (normalizeSql x.data) = false ∧
    ((hasLimitClause (normalizeSql x.data) = false ∧
        y.data = normalizeSql x.data ++ limitSuffix) ∨
     (hasLimitClause (normalizeSql x.data) = true ∧
        y.data = normalizeSql x.data)) := by
  simp only [sanitizeSelect] at h
  cases hs : sqlSelectPattern (normalizeSql x.data) <;> rw [hs] at h
  · simp at h
  · cases hm : hasMutating (normalizeSql x.data) <;> rw [hm] at h
    · cases hl : hasLimitClause (normalizeSql x.data) <;> rw [hl] at h <;> simp at h
      · exact ⟨rfl, rfl, Or.inl ⟨rfl, by rw [← h]⟩⟩
      · exact ⟨rfl, rfl, Or.inr ⟨rfl, by rw [← h]⟩⟩
    · simp at h

theorem sanitize_eval_ok {z : String}
    (h1 : sqlSelectPattern (normalizeSql z.data) = true)
    (h2 : hasMutating (normalizeSql z.data) = false)
    (h3 : hasLimitClause (normalizeSql z.data) = true) :
    sanitizeSelect z = Except.ok (String.mk (normalizeSql z.data)) := by
  simp only [sanitizeSelect]
  rw [h1, h2, h3]
  simp

/-- **C3, counterexample.**  The claim says a second application of
`sanitizeSelect` equals the first; but on `"select 1 limit 5 ;"` the first
pass yields `"select 1 limit 5 "` (a trailing space exposed by semicolon
stripping) and the second pass trims that space, so the two differ. -/
theorem sanitizeSelect_idempotent_cex :
    sanitizeSelect "select 1 limit 5 ;" = Except.ok "select 1 limit 5 " ∧
    sanitizeSelect "select 1 limit 5 " = Except.ok "select 1 limit 5" ∧
    ("select 1 limit 5" : String) ≠ "select 1 limit 5 " :=
  ⟨by decide, by decide, by decide⟩

/-- **C3, amended.**  For every accepted input `x`, a second application of
`sanitizeSelect` to the output `y` always succeeds and never appends a
second `LIMIT` clause: it returns exactly the re-normalized `y` (which
already contains a `LIMIT` numeral clause).  The result equals `y` whenever
`y` does not end in whitespace — in particular whenever the first pass
appended `LIMIT 1000`; otherwise the two differ only by the second pass
trimming trailing whitespace/semicolons. -/
theorem sanitizeSelect_second_pass (x y : String)
    (h : sanitizeSelect x = Except.ok y) :
    sanitizeSelect y = Except.ok (String.mk (normalizeSql y.data)) ∧
    hasLimitClause (normalizeSql y.data) = true ∧
    (∀ c, lastChar? y.data = some c → isSpace c = false →
      sanitizeSelect y = Except.ok y) := by
  obtain ⟨hsel, hmut, hcase⟩ := sanitize_ok_cases h
  have hheadn : ∀ c r, normalizeSql x.data = c :: r → isSpace c = false :=
    fun c r hcr => normalizeSql_head hcr
  have hne : normalizeSql x.data ≠ [] := by
    intro he
    rw [he] at hsel
    exact absurd hsel (by decide)
  rcases hcase with ⟨hlimF, hy⟩ | ⟨hlimT, hy⟩
  · obtain ⟨hnorm, hsel2, hmut2, hlim2⟩ := append_limit_core hheadn hne hsel hmut
    have hyn : normalizeSql y.data = y.data := by rw [hy]; exact hnorm
    have h1 : sanitizeSelect y = Except.ok (String.mk (normalizeSql y.data)) := by
      apply sanitize_eval_ok
      · rw [hyn, hy]; exact hsel2
      · rw [hyn, hy]; exact hmut2
      · rw [hyn, hy]; exact hlim2
    refine ⟨h1, by rw [hyn, hy]; exact hlim2, fun c _ _ => ?_⟩
    rw [h1, hyn, mk_data]
  · have core := second_pass_core hheadn hsel hmut
    have h1 : sanitizeSelect y = Except.ok (String.mk (normalizeSql y.data)) := by
      apply sanitize_eval_ok
      · rw [hy]; exact core.1
      · rw [hy]; exact core.2.1
      · rw [hy]; exact core.2.2 hlimT
    refine ⟨h1, by rw [hy]; exact core.2.2 hlimT, fun c hlast hspace => ?_⟩
    have heq : normalizeSql y.data = y.data := by
      apply normalizeSql_eq_self
      · intro c' r' hcr
        rw [hy] at hcr
        exact hheadn c' r' hcr
      · intro c' hc'
        rw [hlast] at hc'
        rw [← Option.some.inj hc']
        exact hspace
      · intro c' hc'
        rw [hy] at hc'
        exact normalizeSql_last hc'
    rw [h1, heq, mk_data]

/-- **C3 witness** for `sanitizeSelect_second_pass`, at `x = "SELECT 1"`
(whose guarded output is `"SELECT 1\nLIMIT 1000"`). -/
theorem sanitizeSelect_second_pass_witness :
    sanitizeSelect "SELECT 1\nLIMIT 1000" =
      Except.ok (String.mk (normalizeSql ("SELECT 1\nLIMIT 1000" : String).data)) ∧
    hasLimitClause (normalizeSql ("SELECT 1\nLIMIT 1000" : String).data) = true ∧
    (∀ c, lastChar? ("SELECT 1\nLIMIT 1000" : String).data = some c →
      isSpace c = false →
      sanitizeSelect "SELECT 1\nLIMIT 1000" = Except.ok "SELECT 1\nLIMIT 1000") :=
  sanitizeSelect_second_pass "SELECT 1" "SELECT 1\nLIMIT 1000" (by decide)

end CrimeApp
